import Mathlib

/-!
Verification of the opencode-marketplace reconciliation engine.

This file gives a shallow embedding, in Lean 4, of the core of the
opencode-marketplace package manager: plugin-name resolution and slug
validation (src/types.ts, src/resolution.ts), the content hasher
(src/resolution.ts), component discovery (src/discovery.ts), target-path
computation (src/paths.ts), the registry store (src/registry.ts), conflict
detection and the install flow (src/commands/install.ts), and the uninstall
flow (src/commands/uninstall.ts).

External collaborators (the filesystem, the SHA-256 digest, the interactive
picker, the git clone step) are passed in as explicit parameters, so every
definition is executable.  Node path normalization is modelled as the
identity on the already-normal paths produced here, and JS `toLowerCase`
is modelled on its ASCII fragment (non-ASCII letters fail slug validation
on both sides).
-/

namespace Ocm

/-- Installation scope (types.ts): `"user" | "project"`. -/
inductive Scope where
  | user
  | project
deriving DecidableEq, Repr

/-- Component type (types.ts): `"command" | "agent" | "skill"`. -/
inductive ComponentType where
  | command
  | agent
  | skill
deriving DecidableEq, Repr

/-- The string carried by a `ComponentType` value in the source. -/
def ComponentType.str : ComponentType → String
  | .command => "command"
  | .agent => "agent"
  | .skill => "skill"

/-- DiscoveredComponent (types.ts): a component found during discovery. -/
structure DiscoveredComponent where
  type : ComponentType
  sourcePath : String
  name : String
  targetName : String
deriving DecidableEq, Repr

/-- PluginSource (types.ts): local path or remote url plus optional ref. -/
inductive PluginSource where
  | localPath (path : String)
  | remote (url : String) (ref : Option String)
deriving DecidableEq, Repr

/-- The `components` field of an InstalledPlugin record (types.ts). -/
structure ComponentsRecord where
  commands : List String
  agents : List String
  skills : List String
deriving DecidableEq, Repr

/-- InstalledPlugin (types.ts): one registry record. -/
structure InstalledPlugin where
  name : String
  hash : String
  scope : Scope
  source : PluginSource
  installedAt : String
  components : ComponentsRecord
deriving DecidableEq, Repr

/-- PluginRegistry (types.ts).  A JS object is embedded as an association
list in insertion order (`Object.entries` iteration order); the version is
the parsed JSON `version` field, absent when the file had none. -/
structure PluginRegistry where
  version : Option Int
  plugins : List (String × InstalledPlugin)
deriving DecidableEq, Repr

/-- One character of the class `[a-z0-9-]` from the regex in
`validatePluginName` (types.ts line 61). -/
def isSlugChar (c : Char) : Bool :=
  (97 ≤ c.toNat && c.toNat ≤ 122) || (48 ≤ c.toNat && c.toNat ≤ 57) || c = '-'

/-- `validatePluginName` (types.ts lines 60-62): tests the whole name
against `[a-z0-9-]+`, anchored at both ends. -/
def validatePluginName (name : String) : Bool :=
  !name.data.isEmpty && name.data.all isSlugChar

/-- `getComponentTargetName` (types.ts lines 68-70). -/
def getComponentTargetName (pluginName originalName : String) : String :=
  pluginName ++ "--" ++ originalName

/-- Path-separator characters of the regex split in `resolvePluginName`
(resolution.ts): forward slash and backslash. -/
def isPathSep (c : Char) : Bool :=
  c = '/' || c = '\\'

/-- JS `String.split` on the separator class, keeping empty segments. -/
def splitSegs : List Char → List (List Char)
  | [] => [[]]
  | c :: cs =>
    if isPathSep c then [] :: splitSegs cs
    else
      match splitSegs cs with
      | [] => [[c]]
      | s :: ss => (c :: s) :: ss

/-- `parts.filter(Boolean).pop() || ""` from `resolvePluginName`: the last
nonempty segment of a character list, or the empty list. -/
def segsLastNE (l : List Char) : List Char :=
  (((splitSegs l).filter (fun s => !s.isEmpty)).getLast?).getD []

/-- JS `toLowerCase` on its ASCII fragment. -/
def lowerChar (c : Char) : Char :=
  if 65 ≤ c.toNat ∧ c.toNat ≤ 90 then Char.ofNat (c.toNat + 32) else c

/-- The name candidate computed by `resolvePluginName` (resolution.ts
lines 116-120): last nonempty path segment, leading dots stripped, then
lowercased. -/
def strippedLowerLastSeg (pluginPath : String) : String :=
  ⟨((segsLastNE pluginPath.data).dropWhile (fun c => c = '.')).map lowerChar⟩

/-- `resolvePluginName` (resolution.ts lines 115-129).  The thrown
exception is embedded as an `Except.error` carrying the message. -/
def resolvePluginName (pluginPath : String) : Except String String :=
  if validatePluginName (strippedLowerLastSeg pluginPath) then
    .ok (strippedLowerLastSeg pluginPath)
  else
    .error ("Invalid plugin name \"" ++ strippedLowerLastSeg pluginPath ++
      "\". Plugin names must be lowercase alphanumeric with hyphens.")

/-- Lexicographic comparison of character lists by code point; this embeds
the `localeCompare`-based ordering used by `computePluginHash`
(resolution.ts lines 139-146). -/
def lexLe : List Char → List Char → Bool
  | [], _ => true
  | _ :: _, [] => false
  | a :: as, b :: bs =>
    if a.toNat < b.toNat then true
    else if b.toNat < a.toNat then false
    else lexLe as bs

/-- The sort comparator of `computePluginHash`: by type first, then by
name.  Equal type strings mean equal types, so the type comparison only
matters when the types differ. -/
def componentLE (a b : DiscoveredComponent) : Bool :=
  if a.type = b.type then lexLe a.name.data b.name.data
  else lexLe (ComponentType.str a.type).data (ComponentType.str b.type).data

/-- The `[...components].sort(...)` step of `computePluginHash`.  JS
`Array.prototype.sort` is a stable comparator sort; it is embedded as the
stable `insertionSort` on the comparator. -/
def sortComponents (components : List DiscoveredComponent) : List DiscoveredComponent :=
  components.insertionSort (fun a b => componentLE a b = true)

/-- The path whose bytes are hashed for a component: the `SKILL.md` file
for skills, the component file itself otherwise (resolution.ts 153-158). -/
def contentPath (c : DiscoveredComponent) : String :=
  if c.type = .skill then c.sourcePath ++ "/SKILL.md" else c.sourcePath

/-- The identity tag fed to the digest before the content bytes of each
component: the code points of `type ++ ":" ++ name ++ ":"`. -/
def tagBytes (c : DiscoveredComponent) : List Nat :=
  ((ComponentType.str c.type) ++ ":" ++ c.name ++ ":").data.map Char.toNat

/-- The byte stream fed to the SHA-256 state by the loop of
`computePluginHash`, over an explicit file reader.  A failed read makes
the whole operation fail, as in the source. -/
def hashStream (readF : String → Except Unit (List Nat)) :
    List DiscoveredComponent → Except String (List Nat)
  | [] => .ok []
  | c :: cs =>
    match readF (contentPath c) with
    | .error _ =>
      .error ("Failed to read component content for hashing: " ++ c.sourcePath)
    | .ok content =>
      match hashStream readF cs with
      | .error e => .error e
      | .ok rest => .ok (tagBytes c ++ content ++ rest)

/-- `computePluginHash` (resolution.ts lines 135-172), with the SHA-256
digest and the file reader as parameters for the external collaborators:
sort the components, then digest the concatenated tagged contents. -/
def computePluginHash (digest : List Nat → String)
    (readF : String → Except Unit (List Nat))
    (components : List DiscoveredComponent) : Except String String :=
  (hashStream readF (sortComponents components)).map digest

/-- Ambient process values consumed by paths.ts: the home directory, the
working directory, and the value of `resolveUserSkillsPath()` (config.ts:
the configured skills base, or `~/.agents`, joined with `skills`). -/
structure Env where
  home : String
  cwd : String
  skillsDir : String
deriving DecidableEq, Repr

/-- Node `path.join` for one separator-free-boundary step: collapses the
boundary slash exactly as `join` does on the inputs appearing here. -/
def joinPath (a b : String) : String :=
  if a.data.getLast? = some '/' then a ++ b else a ++ "/" ++ b

/-- `pluralizeType` (paths.ts): the directory name of a component type. -/
def pluralizeType (t : ComponentType) : String :=
  ComponentType.str t ++ "s"

/-- `getComponentDir` (paths.ts): base directory of a component type with
a trailing slash.  `normalize` is the identity on these paths. -/
def getComponentDir (env : Env) (type : ComponentType) (scope : Scope)
    (targetDir : Option String) : String :=
  match scope with
  | .user =>
    match targetDir with
    | some td => joinPath td (pluralizeType type) ++ "/"
    | none =>
      if type = .skill then env.skillsDir ++ "/"
      else
        joinPath (joinPath (joinPath env.home ".config") "opencode")
          (pluralizeType type) ++ "/"
  | .project => joinPath (joinPath env.cwd ".opencode") (pluralizeType type) ++ "/"

/-- `getComponentTargetPath` (paths.ts): full target path of a component,
with a trailing slash for skills. -/
def getComponentTargetPath (env : Env) (pluginName componentName : String)
    (type : ComponentType) (scope : Scope) (targetDir : Option String) : String :=
  let baseDir := getComponentDir env type scope targetDir
  let targetName := getComponentTargetName pluginName componentName
  let fullPath := joinPath baseDir targetName
  if type = .skill then fullPath ++ "/" else fullPath

/-- `targetPath.endsWith("/") ? targetPath.slice(0, -1) : targetPath`,
used by install.ts and uninstall.ts before filesystem operations. -/
def stripSlash (p : String) : String :=
  if p.data.getLast? = some '/' then ⟨p.data.dropLast⟩ else p

/-- `basename` (Node) as used on the copied target paths in install.ts:
the last nonempty path segment. -/
def basenameOf (p : String) : String :=
  ⟨segsLastNE p.data⟩

/-- The empty current-version registry value produced by `loadRegistry`. -/
def emptyRegistryV2 : PluginRegistry :=
  { version := some 2, plugins := [] }

/-- Outcome of reading and JSON-parsing the registry file, the input to
the pure part of `loadRegistry` (registry.ts). -/
inductive RegistryReadResult where
  | missing
  | unparseable
  | parsed (r : PluginRegistry)
deriving Repr

/-- `loadRegistry` (registry.ts lines 23-45): a missing or unparseable
file and an old v1 registry all yield an empty v2 registry; any other
parsed registry is returned unchanged. -/
def loadRegistry : RegistryReadResult → PluginRegistry
  | .missing => emptyRegistryV2
  | .unparseable => emptyRegistryV2
  | .parsed r => if r.version = some 1 then emptyRegistryV2 else r

/-- `registry.plugins[name]` lookup (first matching key in insertion
order; keys are unique in JS objects). -/
def lookupPlugin (reg : PluginRegistry) (name : String) : Option InstalledPlugin :=
  (reg.plugins.find? (fun e => e.1 = name)).map (·.2)

/-- JS assignment `registry.plugins[name] = p`: replace in place when the
key exists, append otherwise. -/
def setPlugin (reg : PluginRegistry) (name : String) (p : InstalledPlugin) :
    PluginRegistry :=
  if (reg.plugins.find? (fun e => e.1 = name)).isSome then
    { reg with plugins := reg.plugins.map (fun e => if e.1 = name then (name, p) else e) }
  else
    { reg with plugins := reg.plugins ++ [(name, p)] }

/-- JS `delete registry.plugins[name]`. -/
def removePlugin (reg : PluginRegistry) (name : String) : PluginRegistry :=
  { reg with plugins := reg.plugins.filter (fun e => e.1 ≠ name) }

/-- `plugin.components[componentType + "s"]` (install.ts line 352). -/
def componentList (p : InstalledPlugin) : ComponentType → List String
  | .command => p.components.commands
  | .agent => p.components.agents
  | .skill => p.components.skills

/-- `findOwningPlugin` (install.ts lines 346-358): the first plugin in
registry iteration order whose component list of this type contains the
target name, or `none` for an untracked target. -/
def findOwningPlugin (reg : PluginRegistry) (componentType : ComponentType)
    (targetName : String) : Option String :=
  ((reg.plugins.find? (fun e => (componentList e.2 componentType).contains targetName)).map (·.1))

/-- ConflictInfo (install.ts lines 28-32). -/
structure ConflictInfo where
  component : DiscoveredComponent
  targetPath : String
  conflictingPlugin : Option String
deriving DecidableEq, Repr

/-- `detectConflicts` (install.ts lines 303-340) over an explicit set of
existing filesystem paths and the loaded scope registry: scan every
component; an existing target owned by a different plugin or by no plugin
is a conflict, and the whole list is returned in one pass. -/
def detectConflicts (env : Env) (fs : List String) (reg : PluginRegistry)
    (components : List DiscoveredComponent) (pluginName : String) (scope : Scope)
    (targetDir : Option String) : List ConflictInfo :=
  components.filterMap (fun c =>
    let targetPath := getComponentTargetPath env pluginName c.name c.type scope targetDir
    let normalizedTarget := stripSlash targetPath
    if normalizedTarget ∈ fs then
      let owningPlugin := findOwningPlugin reg c.type c.targetName
      if owningPlugin ≠ some pluginName then
        some { component := c, targetPath := normalizedTarget,
               conflictingPlugin := owningPlugin }
      else none
    else none)

/-- InstallOptions (install.ts lines 19-26); `verbose` only affects
logging and is omitted. -/
structure InstallOptions where
  scope : Scope
  force : Bool
  interactive : Bool
  skipIfSameHash : Bool
  targetDir : Option String
deriving DecidableEq, Repr

/-- SelectionResult returned by the interactive picker collaborator
(interactive.ts). -/
structure SelectionResult where
  selected : List DiscoveredComponent
  cancelled : Bool
deriving DecidableEq, Repr

/-- Outcome of the `selectComponents` call as observed by install.ts: a
result, the prompt library throwing its user-force-closed error, or any
other exception (which install.ts rethrows). -/
inductive PickOutcome where
  | result (r : SelectionResult)
  | forcedClose
  | failure (msg : String)
deriving DecidableEq, Repr

/-- InstallResult (install.ts lines 34-37). -/
inductive InstallStatus where
  | installed
  | updated
  | skipped
deriving DecidableEq, Repr

structure InstallResult where
  status : InstallStatus
  pluginName : String
deriving DecidableEq, Repr

/-- Errors thrown by the modelled part of `install`; the conflict abort
carries the conflict list that install.ts prints before throwing. -/
inductive InstallError where
  | conflicts (cs : List ConflictInfo)
  | other (msg : String)
deriving DecidableEq, Repr

/-- Mutable state visible to install and uninstall: the set of existing
target-filesystem paths, the persisted scope registry, and the live
temporary clone directory, if any. -/
structure World where
  fs : List String
  registry : PluginRegistry
  temp : Option String
deriving DecidableEq, Repr

/-- `cleanup(tempDir)` (git.ts), called on every exit path of install. -/
def cleanupTemp (w : World) : World :=
  { w with temp := none }

/-- Step 3.5 of `install` (install.ts lines 107-143): interactive
selection.  `none` means the benign skipped outcome (cancelled, empty
selection, or the prompt being force-closed). -/
def selectStep (interactive : Bool) (pick : PickOutcome)
    (components : List DiscoveredComponent) :
    Except InstallError (Option (List DiscoveredComponent)) :=
  if !interactive then .ok (some components)
  else
    match pick with
    | .result r =>
      if r.cancelled then .ok none
      else if r.selected.isEmpty then .ok none
      else .ok (some r.selected)
    | .forcedClose => .ok none
    | .failure msg => .error (.other msg)

/-- Step 5 of `install` (install.ts lines 162-190): tri-state status from
the existing registry entry. -/
def installStatusOf (existingPlugin : Option InstalledPlugin)
    (pluginHash : String) : InstallStatus :=
  match existingPlugin with
  | none => .installed
  | some p => if p.hash = pluginHash then .installed else .updated

/-- Set-like insert used to model a filesystem write creating a path. -/
def fsInsert (fs : List String) (p : String) : List String :=
  if p ∈ fs then fs else fs ++ [p]

/-- `ensureComponentDirsExist` (paths.ts lines 62-68): idempotent creation
of the three component-type directories. -/
def ensureComponentDirsExist (env : Env) (scope : Scope)
    (targetDir : Option String) (fs : List String) : List String :=
  [ComponentType.command, ComponentType.agent, ComponentType.skill].foldl
    (fun acc t => fsInsert acc (getComponentDir env t scope targetDir)) fs

/-- Step 8 of `install` (install.ts lines 219-259): copy the components
in name-sorted order and record the installed target names per type. -/
def copyComponents (env : Env) (pluginName : String) (scope : Scope)
    (targetDir : Option String) (componentsToInstall : List DiscoveredComponent)
    (fs : List String) : List String × ComponentsRecord :=
  let sorted := componentsToInstall.insertionSort
    (fun a b => lexLe a.name.data b.name.data = true)
  sorted.foldl (fun acc c =>
    let targetPath := getComponentTargetPath env pluginName c.name c.type scope targetDir
    let normalizedTarget := stripSlash targetPath
    let fs2 := fsInsert acc.1 normalizedTarget
    let rec2 :=
      match c.type with
      | .skill => { acc.2 with skills := acc.2.skills ++ [basenameOf normalizedTarget] }
      | .command => { acc.2 with commands := acc.2.commands ++ [basenameOf normalizedTarget] }
      | .agent => { acc.2 with agents := acc.2.agents ++ [basenameOf normalizedTarget] }
    (fs2, rec2)) (fs, ⟨[], [], []⟩)

/-- `install` (install.ts lines 107-295), starting after source
acquisition, name resolution, discovery and hashing, whose outputs are
passed in (`pluginName`, `components`, `pluginHash`, `src`).  `now` is the
clock value used for `installedAt`.  Registry loads inside the flow read
`w.registry`, the persisted file. -/
def install (env : Env) (pluginName : String)
    (components : List DiscoveredComponent) (pluginHash : String)
    (src : PluginSource) (now : String) (opts : InstallOptions)
    (pick : PickOutcome) (w : World) :
    Except InstallError (World × InstallResult) :=
  match selectStep opts.interactive pick components with
  | .error e => .error e
  | .ok none => .ok (cleanupTemp w, { status := .skipped, pluginName := "" })
  | .ok (some componentsToInstall) =>
    let existingPlugin := lookupPlugin w.registry pluginName
    let sameHash :=
      match existingPlugin with
      | some p => p.hash = pluginHash
      | none => false
    if opts.skipIfSameHash && sameHash then
      .ok (cleanupTemp w, { status := .skipped, pluginName := pluginName })
    else
      let installStatus := installStatusOf existingPlugin pluginHash
      let conflicts := detectConflicts env w.fs w.registry componentsToInstall
        pluginName opts.scope opts.targetDir
      if !conflicts.isEmpty && !opts.force then .error (.conflicts conflicts)
      else
        let fs1 := ensureComponentDirsExist env opts.scope opts.targetDir w.fs
        let copied := copyComponents env pluginName opts.scope opts.targetDir
          componentsToInstall fs1
        let newPlugin : InstalledPlugin :=
          { name := pluginName, hash := pluginHash, scope := opts.scope,
            source := src, installedAt := now, components := copied.2 }
        .ok ({ fs := copied.1,
               registry := setPlugin w.registry pluginName newPlugin,
               temp := none },
             { status := installStatus, pluginName := pluginName })

/-- DeletionResult (uninstall.ts lines 14-17). -/
structure DeletionResult where
  deleted : List String
  alreadyMissing : List String
deriving DecidableEq, Repr

/-- The filesystem path `deleteComponent` acts on (uninstall.ts lines
116-120): the component directory joined with the recorded target name,
trailing slash stripped. -/
def targetFsPath (env : Env) (scope : Scope) (t : ComponentType × String) : String :=
  stripSlash (joinPath (getComponentDir env t.1 scope none) t.2)

/-- The `type/name` label uninstall.ts records in its deletion results. -/
def targetTag (t : ComponentType × String) : String :=
  ComponentType.str t.1 ++ "/" ++ t.2

/-- `deleteComponent` (uninstall.ts lines 109-151).  `rmOk` tells whether
`rm` on a given existing path succeeds; a missing path is recorded as
already deleted and never fails. -/
def deleteComponent (env : Env) (rmOk : String → Bool) (type : ComponentType)
    (componentName : String) (scope : Scope)
    (acc : List String × DeletionResult) :
    Except String (List String × DeletionResult) :=
  let normalizedPath := targetFsPath env scope (type, componentName)
  if normalizedPath ∈ acc.1 then
    if rmOk normalizedPath then
      .ok (acc.1.filter (fun p => p ≠ normalizedPath),
        { acc.2 with deleted := acc.2.deleted ++ [targetTag (type, componentName)] })
    else
      .error ("Failed to delete " ++ targetTag (type, componentName))
  else
    .ok (acc.1,
      { acc.2 with alreadyMissing := acc.2.alreadyMissing ++ [targetTag (type, componentName)] })

/-- The sequential deletion loops of `uninstall` (uninstall.ts 52-65):
the first real deletion failure aborts the remainder. -/
def deleteAll (env : Env) (rmOk : String → Bool) (scope : Scope) :
    List (ComponentType × String) → List String × DeletionResult →
    Except String (List String × DeletionResult)
  | [], acc => .ok acc
  | (t, n) :: rest, acc =>
    match deleteComponent env rmOk t n scope acc with
    | .error e => .error e
    | .ok acc2 => deleteAll env rmOk scope rest acc2

/-- The recorded targets of a plugin in deletion order: commands, then
agents, then skills (uninstall.ts lines 52-65). -/
def pluginTargets (p : InstalledPlugin) : List (ComponentType × String) :=
  p.components.commands.map (fun n => (ComponentType.command, n))
    ++ p.components.agents.map (fun n => (ComponentType.agent, n))
    ++ p.components.skills.map (fun n => (ComponentType.skill, n))

/-- `uninstall` (uninstall.ts lines 19-104): look the plugin up, delete
every recorded target, then remove the registry entry and persist.  The
`process.exit(1)` on error is embedded as the `Except.error` result. -/
def uninstall (env : Env) (rmOk : String → Bool) (name : String)
    (scope : Scope) (w : World) : Except String (World × DeletionResult) :=
  match lookupPlugin w.registry name with
  | none =>
    .error ("Plugin \"" ++ name ++ "\" is not installed in this scope.")
  | some plugin =>
    match deleteAll env rmOk scope (pluginTargets plugin) (w.fs, ⟨[], []⟩) with
    | .error e => .error e
    | .ok (fs2, results) =>
      .ok ({ w with fs := fs2, registry := removePlugin w.registry name }, results)

/-- Stat outcome for one directory entry (discovery.ts). -/
inductive StatKind where
  | dir
  | file
  | otherKind
deriving DecidableEq, Repr

/-- The filesystem interface consumed by discovery (discovery.ts):
`existsSync`, `readdir` and `stat`, the latter two fallible. -/
structure FSModel where
  pathExists : String → Bool
  readdir : String → Except Unit (List String)
  statOf : String → Except Unit StatKind

/-- SEARCH_PATHS (discovery.ts lines 72-76): per-type candidate sub-paths
in priority order. -/
def SEARCH_PATHS : ComponentType → List String
  | .command => [".opencode/commands", ".claude/commands", "commands", "command"]
  | .agent => [".opencode/agents", ".claude/agents", "agents", "agent"]
  | .skill => [".opencode/skills", ".claude/skills", "skills", "skill"]

/-- The entry loop of `scanDirectory` (discovery.ts lines 126-154).  The
surrounding try/catch means a `stat` error abandons the remaining entries
while keeping the components already pushed. -/
def scanEntries (fsys : FSModel) (dirPath pluginName : String)
    (type : ComponentType) :
    List String → List DiscoveredComponent → List DiscoveredComponent
  | [], acc => acc
  | entry :: rest, acc =>
    let entryPath := joinPath dirPath entry
    match fsys.statOf entryPath with
    | .error _ => acc
    | .ok kind =>
      let acc2 :=
        if type = .skill then
          if kind = .dir ∧ fsys.pathExists (joinPath entryPath "SKILL.md") then
            acc ++ [⟨type, entryPath, entry, getComponentTargetName pluginName entry⟩]
          else acc
        else
          if kind = .file ∧ (".md".data).isSuffixOf entry.data then
            acc ++ [⟨type, entryPath, entry, getComponentTargetName pluginName entry⟩]
          else acc
      scanEntries fsys dirPath pluginName type rest acc2

/-- `scanDirectory` (discovery.ts lines 117-159): list the directory and
collect components; any error is swallowed and yields what was collected
before it (nothing, for a `readdir` failure). -/
def scanDirectory (fsys : FSModel) (dirPath pluginName : String)
    (type : ComponentType) : List DiscoveredComponent :=
  match fsys.readdir dirPath with
  | .error _ => []
  | .ok entries => scanEntries fsys dirPath pluginName type entries []

/-- The candidate loop of `discoverType` (discovery.ts lines 107-114):
the first existing candidate directory. -/
def firstExistingCandidate (fsys : FSModel) (root : String) :
    List String → Option String
  | [] => none
  | p :: ps =>
    let fullPath := joinPath root p
    if fsys.pathExists fullPath then some fullPath
    else firstExistingCandidate fsys root ps

/-- `discoverType` (discovery.ts lines 98-115): scan the first existing
candidate and stop, whatever the scan produced. -/
def discoverType (fsys : FSModel) (root pluginName : String)
    (type : ComponentType) : List DiscoveredComponent :=
  match firstExistingCandidate fsys root (SEARCH_PATHS type) with
  | none => []
  | some fullPath => scanDirectory fsys fullPath pluginName type

/-- `discoverComponents` (discovery.ts lines 82-96); the three per-type
passes touch disjoint data, so the concurrent interleaving only permutes
the result, which is listed here in type order. -/
def discoverComponents (fsys : FSModel) (pluginRoot pluginName : String) :
    List DiscoveredComponent :=
  discoverType fsys pluginRoot pluginName .command
    ++ discoverType fsys pluginRoot pluginName .agent
    ++ discoverType fsys pluginRoot pluginName .skill

theorem char_eq_of_toNat_eq {a b : Char} (h : a.toNat = b.toNat) : a = b := by
  have ha := Char.ofNat_toNat a
  rw [h, Char.ofNat_toNat] at ha
  exact ha.symm

theorem lexLe_total (x : List Char) : ∀ y, lexLe x y = true ∨ lexLe y x = true := by
  induction x with
  | nil => intro y; left; rfl
  | cons a as ih =>
    intro y
    cases y with
    | nil => right; rfl
    | cons b bs =>
      rcases Nat.lt_trichotomy a.toNat b.toNat with h | h | h
      · left; simp [lexLe, h]
      · have h1 : ¬ a.toNat < b.toNat := by omega
        have h2 : ¬ b.toNat < a.toNat := by omega
        simpa [lexLe, h1, h2] using ih bs
      · right; simp [lexLe, h]

theorem lexLe_trans (x : List Char) :
    ∀ y z, lexLe x y = true → lexLe y z = true → lexLe x z = true := by
  induction x with
  | nil => intro y z _ _; rfl
  | cons a as ih =>
    intro y z hxy hyz
    cases y with
    | nil => simp [lexLe] at hxy
    | cons b bs =>
      cases z with
      | nil => simp [lexLe] at hyz
      | cons c cs =>
        simp only [lexLe] at hxy hyz ⊢
        rcases Nat.lt_trichotomy a.toNat b.toNat with h1 | h1 | h1 <;>
          rcases Nat.lt_trichotomy b.toNat c.toNat with h2 | h2 | h2
        · simp [show a.toNat < c.toNat by omega]
        · simp [show a.toNat < c.toNat by omega]
        · simp [show ¬ b.toNat < c.toNat by omega,
            show c.toNat < b.toNat by omega] at hyz
        · simp [show a.toNat < c.toNat by omega]
        · have e1 : ¬ a.toNat < b.toNat := by omega
          have e2 : ¬ b.toNat < a.toNat := by omega
          have e3 : ¬ b.toNat < c.toNat := by omega
          have e4 : ¬ c.toNat < b.toNat := by omega
          simp only [if_neg e1, if_neg e2] at hxy
          simp only [if_neg e3, if_neg e4] at hyz
          simp only [show ¬ a.toNat < c.toNat by omega,
            show ¬ c.toNat < a.toNat by omega, if_neg, if_false]
          exact ih bs cs hxy hyz
        · simp [show ¬ b.toNat < c.toNat by omega,
            show c.toNat < b.toNat by omega] at hyz
        · simp [show ¬ a.toNat < b.toNat by omega,
            show b.toNat < a.toNat by omega] at hxy
        · simp [show ¬ a.toNat < b.toNat by omega,
            show b.toNat < a.toNat by omega] at hxy
        · simp [show ¬ a.toNat < b.toNat by omega,
            show b.toNat < a.toNat by omega] at hxy

theorem lexLe_antisymm (x : List Char) :
    ∀ y, lexLe x y = true → lexLe y x = true → x = y := by
  induction x with
  | nil =>
    intro y _ hyx
    cases y with
    | nil => rfl
    | cons b bs => simp [lexLe] at hyx
  | cons a as ih =>
    intro y hxy hyx
    cases y with
    | nil => simp [lexLe] at hxy
    | cons b bs =>
      simp only [lexLe] at hxy hyx
      rcases Nat.lt_trichotomy a.toNat b.toNat with h | h | h
      · simp [show ¬ b.toNat < a.toNat by omega, h] at hyx
      · have e1 : ¬ a.toNat < b.toNat := by omega
        have e2 : ¬ b.toNat < a.toNat := by omega
        simp only [if_neg e1, if_neg e2] at hxy hyx
        rw [char_eq_of_toNat_eq h, ih bs hxy hyx]
      · simp [show ¬ a.toNat < b.toNat by omega, h] at hxy

theorem ComponentType.str_inj :
    ∀ t u : ComponentType, ComponentType.str t = ComponentType.str u → t = u := by
  intro t u h
  cases t <;> cases u <;> first | rfl | (exact absurd h (by decide))

theorem componentLE_total (a b : DiscoveredComponent) :
    (componentLE a b || componentLE b a) = true := by
  unfold componentLE
  by_cases h : a.type = b.type
  · rw [if_pos h, if_pos h.symm]
    rcases lexLe_total a.name.data b.name.data with h2 | h2 <;> simp [h2]
  · rw [if_neg h, if_neg (fun hh => h hh.symm)]
    rcases lexLe_total (ComponentType.str a.type).data
      (ComponentType.str b.type).data with h2 | h2 <;> simp [h2]

theorem componentLE_trans (a b c : DiscoveredComponent) :
    componentLE a b = true → componentLE b c = true → componentLE a c = true := by
  intro h1 h2
  unfold componentLE at h1 h2 ⊢
  by_cases hab : a.type = b.type <;> by_cases hbc : b.type = c.type
  · rw [if_pos hab] at h1
    rw [if_pos hbc] at h2
    rw [if_pos (hab.trans hbc)]
    exact lexLe_trans _ _ _ h1 h2
  · rw [if_pos hab] at h1
    rw [if_neg hbc] at h2
    rw [if_neg (fun h => hbc (hab.symm.trans h)), hab]
    exact h2
  · rw [if_neg hab] at h1
    rw [if_pos hbc] at h2
    rw [if_neg (fun h => hab (h.trans hbc.symm)), ← hbc]
    exact h1
  · rw [if_neg hab] at h1
    rw [if_neg hbc] at h2
    by_cases hac : a.type = c.type
    · exfalso
      have h3 : lexLe (ComponentType.str b.type).data
          (ComponentType.str a.type).data = true := by
        rw [hac]; exact h2
      exact hab (ComponentType.str_inj _ _ (String.ext (lexLe_antisymm _ _ h1 h3)))
    · rw [if_neg hac]
      exact lexLe_trans _ _ _ h1 h2

theorem componentLE_antisymm_key (a b : DiscoveredComponent)
    (h1 : componentLE a b = true) (h2 : componentLE b a = true) :
    a.type = b.type ∧ a.name = b.name := by
  unfold componentLE at h1 h2
  by_cases h : a.type = b.type
  · rw [if_pos h] at h1
    rw [if_pos h.symm] at h2
    exact ⟨h, String.ext (lexLe_antisymm _ _ h1 h2)⟩
  · rw [if_neg h] at h1
    rw [if_neg (fun hh => h hh.symm)] at h2
    exact absurd (ComponentType.str_inj _ _ (String.ext (lexLe_antisymm _ _ h1 h2))) h

/-- Two sorted lists that are permutations of each other and whose sort
keys are distinct are equal, even when the order is only antisymmetric up
to the key. -/
theorem eq_of_perm_of_sorted_of_nodup {α κ : Type} (r : α → α → Prop) (key : α → κ)
    (hanti : ∀ a b, r a b → r b a → key a = key b) :
    ∀ l₁ l₂ : List α, l₁.Perm l₂ → l₁.Pairwise r → l₂.Pairwise r →
      (l₁.map key).Nodup → l₁ = l₂ := by
  intro l₁
  induction l₁ with
  | nil =>
    intro l₂ hp _ _ _
    exact hp.nil_eq
  | cons a t ih =>
    intro l₂ hp hs₁ hs₂ hnd
    cases l₂ with
    | nil => exact absurd (hp.symm.nil_eq).symm (by simp)
    | cons b t₂ =>
      by_cases hab : a = b
      · subst hab
        have ht := ih t₂ hp.cons_inv (List.pairwise_cons.mp hs₁).2
          (List.pairwise_cons.mp hs₂).2 (by
            rw [List.map_cons] at hnd
            exact (List.nodup_cons.mp hnd).2)
        rw [ht]
      · exfalso
        have hbmem : b ∈ a :: t := hp.symm.subset (List.mem_cons_self b t₂)
        have hamem : a ∈ b :: t₂ := hp.subset (List.mem_cons_self a t)
        have hbt : b ∈ t := by
          rcases List.mem_cons.mp hbmem with h | h
          · exact absurd h.symm hab
          · exact h
        have hat2 : a ∈ t₂ := by
          rcases List.mem_cons.mp hamem with h | h
          · exact absurd h hab
          · exact h
        have hk := hanti a b ((List.pairwise_cons.mp hs₁).1 b hbt)
          ((List.pairwise_cons.mp hs₂).1 a hat2)
        have hmem : key b ∈ t.map key := List.mem_map_of_mem key hbt
        rw [← hk] at hmem
        rw [List.map_cons] at hnd
        exact (List.nodup_cons.mp hnd).1 hmem

/-- C1: for every list of discovered components with pairwise-distinct
(type, name) pairs and every permutation of it, `computePluginHash`
produces the same digest, whatever the digest function and file contents:
sorting by (type, name) makes the hash input a function of the component
set only. -/
theorem computePluginHash_perm_invariant (digest : List Nat → String)
    (readF : String → Except Unit (List Nat))
    (l₁ l₂ : List DiscoveredComponent) (hperm : l₁.Perm l₂)
    (hnd : (l₁.map (fun c => (c.type, c.name))).Nodup) :
    computePluginHash digest readF l₁ = computePluginHash digest readF l₂ := by
  have htr : ∀ a b c : DiscoveredComponent,
      componentLE a b = true → componentLE b c = true → componentLE a c = true :=
    componentLE_trans
  have hto : ∀ a b : DiscoveredComponent,
      componentLE a b = true ∨ componentLE b a = true := by
    intro a b
    have h := componentLE_total a b
    cases hab : componentLE a b
    · rw [hab] at h
      right
      simpa using h
    · exact Or.inl rfl
  haveI : IsTrans DiscoveredComponent (fun a b => componentLE a b = true) := ⟨htr⟩
  haveI : IsTotal DiscoveredComponent (fun a b => componentLE a b = true) := ⟨hto⟩
  have hsort : sortComponents l₁ = sortComponents l₂ := by
    apply eq_of_perm_of_sorted_of_nodup (fun a b => componentLE a b = true)
      (fun c => (c.type, c.name))
      (fun a b h1 h2 => by
        obtain ⟨ht, hn⟩ := componentLE_antisymm_key a b h1 h2
        show (a.type, a.name) = (b.type, b.name)
        rw [ht, hn])
    · exact ((l₁.perm_insertionSort _).trans hperm).trans
        (l₂.perm_insertionSort _).symm
    · exact List.sorted_insertionSort _ l₁
    · exact List.sorted_insertionSort _ l₂
    · exact (((l₁.perm_insertionSort
        (fun a b => componentLE a b = true)).map _).nodup_iff).mpr hnd
  unfold computePluginHash
  rw [hsort]

def compA : DiscoveredComponent := ⟨.command, "/s/a.md", "a.md", "p--a.md"⟩

def compB : DiscoveredComponent := ⟨.agent, "/s/b.md", "b.md", "p--b.md"⟩

def constDigest : List Nat → String := fun _ => "d"

def emptyRead : String → Except Unit (List Nat) := fun _ => .ok []

/-- C1 witness: the hash of a concrete two-component list equals the hash
of its reversal. -/
theorem computePluginHash_perm_invariant_witness :
    ([compA, compB].Perm [compB, compA]) ∧
    (([compA, compB].map (fun c => (c.type, c.name))).Nodup) ∧
    computePluginHash constDigest emptyRead [compA, compB] =
      computePluginHash constDigest emptyRead [compB, compA] :=
  ⟨by decide, by decide,
    computePluginHash_perm_invariant constDigest emptyRead _ _ (by decide) (by decide)⟩

theorem isSlugChar_iff (ch : Char) :
    isSlugChar ch = true ↔
      (('a'.toNat ≤ ch.toNat ∧ ch.toNat ≤ 'z'.toNat) ∨
        ('0'.toNat ≤ ch.toNat ∧ ch.toNat ≤ '9'.toNat) ∨ ch = '-') := by
  have ha : 'a'.toNat = 97 := rfl
  have hz : 'z'.toNat = 122 := rfl
  have h0 : '0'.toNat = 48 := rfl
  have h9 : '9'.toNat = 57 := rfl
  rw [ha, hz, h0, h9]
  unfold isSlugChar
  simp [Bool.or_eq_true, Bool.and_eq_true, decide_eq_true_eq, or_assoc]

theorem validatePluginName_iff (s : String) :
    validatePluginName s = true ↔
      (s.data ≠ [] ∧ ∀ ch ∈ s.data,
        ('a'.toNat ≤ ch.toNat ∧ ch.toNat ≤ 'z'.toNat) ∨
        ('0'.toNat ≤ ch.toNat ∧ ch.toNat ≤ '9'.toNat) ∨ ch = '-') := by
  unfold validatePluginName
  simp only [Bool.and_eq_true, Bool.not_eq_true', List.all_eq_true, isSlugChar_iff,
    List.isEmpty_eq_false]

/-- C10: `validatePluginName` accepts exactly the nonempty strings made of
lowercase ASCII letters, digits and hyphens — including all-hyphen names
such as "-" and "---" — and rejects the empty string and every string
containing any other character. -/
theorem validatePluginName_characterization :
    (∀ s : String, validatePluginName s = true ↔
      (s.data ≠ [] ∧ ∀ ch ∈ s.data,
        ('a'.toNat ≤ ch.toNat ∧ ch.toNat ≤ 'z'.toNat) ∨
        ('0'.toNat ≤ ch.toNat ∧ ch.toNat ≤ '9'.toNat) ∨ ch = '-')) ∧
    validatePluginName "-" = true ∧
    validatePluginName "---" = true ∧
    validatePluginName "" = false :=
  ⟨validatePluginName_iff, by decide, by decide, by decide⟩

/-- C10 witness: the characterization applied to a concrete accepted name. -/
theorem validatePluginName_characterization_witness :
    ("a-9".data ≠ [] ∧ ∀ ch ∈ ("a-9" : String).data,
      ('a'.toNat ≤ ch.toNat ∧ ch.toNat ≤ 'z'.toNat) ∨
      ('0'.toNat ≤ ch.toNat ∧ ch.toNat ≤ '9'.toNat) ∨ ch = '-') :=
  (validatePluginName_characterization.1 "a-9").mp (by decide)

/-- C6: `resolvePluginName` succeeds exactly when the last nonempty path
segment, with leading dots stripped and lowercased, is a nonempty string
over lowercase letters, digits and hyphens; on success it returns that
string, so "/a/.Hidden-Dir" resolves to "hidden-dir" while
"/a/Invalid_Name" fails with an invalid-name error. -/
theorem resolvePluginName_characterization :
    (∀ path : String,
      ((∃ n, resolvePluginName path = .ok n) ↔
        ((strippedLowerLastSeg path).data ≠ [] ∧
          ∀ ch ∈ (strippedLowerLastSeg path).data,
            ('a'.toNat ≤ ch.toNat ∧ ch.toNat ≤ 'z'.toNat) ∨
            ('0'.toNat ≤ ch.toNat ∧ ch.toNat ≤ '9'.toNat) ∨ ch = '-')) ∧
      (∀ n, resolvePluginName path = .ok n → n = strippedLowerLastSeg path)) ∧
    resolvePluginName "/a/.Hidden-Dir" = .ok "hidden-dir" ∧
    (∃ e, resolvePluginName "/a/Invalid_Name" = .error e) := by
  refine ⟨fun path => ⟨?_, ?_⟩, by rfl, ⟨_, by rfl⟩⟩
  · unfold resolvePluginName
    by_cases h : validatePluginName (strippedLowerLastSeg path) = true
    · rw [if_pos h]
      simp only [Except.ok.injEq, exists_eq]
      exact iff_of_true ⟨_, rfl⟩ ((validatePluginName_iff _).mp h)
    · rw [if_neg h]
      constructor
      · rintro ⟨n, hn⟩
        cases hn
      · intro hP
        exact absurd ((validatePluginName_iff _).mpr hP) h
  · intro n hn
    unfold resolvePluginName at hn
    by_cases h : validatePluginName (strippedLowerLastSeg path) = true
    · rw [if_pos h] at hn
      cases hn
      rfl
    · rw [if_neg h] at hn
      cases hn

/-- C6 witness: the characterization applied to a concrete path. -/
theorem resolvePluginName_characterization_witness :
    resolvePluginName "/a/b/My-Plugin" = .ok "my-plugin" ∧
    "my-plugin" = strippedLowerLastSeg "/a/b/My-Plugin" :=
  ⟨by rfl,
    (resolvePluginName_characterization.1 "/a/b/My-Plugin").2 "my-plugin" (by rfl)⟩

/-- C8: `loadRegistry` treats exactly the parsed registries whose version
field equals 1 as obsolete, returning the empty version-2 registry; a
parsed registry with any other version value, 0 and 3 and a missing field
included, is returned unchanged. -/
theorem loadRegistry_version_gate (r : PluginRegistry) :
    (r.version = some 1 → loadRegistry (.parsed r) = emptyRegistryV2) ∧
    (r.version ≠ some 1 → loadRegistry (.parsed r) = r) := by
  constructor <;> intro h <;> simp [loadRegistry, h]

def regV0 : PluginRegistry := { version := some 0, plugins := [] }

/-- C8 witness: a version-0 registry passes through `loadRegistry`
unchanged. -/
theorem loadRegistry_version_gate_witness :
    regV0.version ≠ some 1 ∧ loadRegistry (.parsed regV0) = regV0 :=
  ⟨by decide, (loadRegistry_version_gate regV0).2 (by decide)⟩

/-- C9: with interactive mode on, a cancelled or empty selection (or the
prompt being force-closed) makes `install` return status skipped with an
empty plugin name, leaving the filesystem and registry untouched and
cleaning up any temporary clone directory. -/
theorem install_interactive_skip (env : Env) (pluginName : String)
    (components : List DiscoveredComponent) (pluginHash : String)
    (src : PluginSource) (now : String) (opts : InstallOptions)
    (pick : PickOutcome) (w : World)
    (hint : opts.interactive = true)
    (hskip : pick = .forcedClose ∨
      ∃ r, pick = .result r ∧ (r.cancelled = true ∨ r.selected = [])) :
    install env pluginName components pluginHash src now opts pick w =
      .ok ({ fs := w.fs, registry := w.registry, temp := none },
        { status := .skipped, pluginName := "" }) := by
  have hsel : selectStep opts.interactive pick components = .ok none := by
    rcases hskip with h | ⟨r, hr, hc⟩
    · subst h
      simp [selectStep, hint]
    · subst hr
      rcases hc with hc | hc
      · simp [selectStep, hint, hc]
      · by_cases hcc : r.cancelled = true <;> simp [selectStep, hint, hcc, hc]
  unfold install
  rw [hsel]
  rfl

def env0 : Env :=
  { home := "/home/u", cwd := "/proj", skillsDir := "/home/u/.agents/skills" }

def world0 : World :=
  { fs := [], registry := emptyRegistryV2, temp := some "/tmp/clone" }

def opts9 : InstallOptions :=
  { scope := .user, force := false, interactive := true,
    skipIfSameHash := false, targetDir := none }

/-- C9 witness: a concrete interactive run with an empty selection. -/
theorem install_interactive_skip_witness :
    opts9.interactive = true ∧
    install env0 "p" [compA] "h" (.localPath "/src") "t" opts9
        (.result ⟨[], false⟩) world0 =
      .ok ({ fs := world0.fs, registry := world0.registry, temp := none },
        { status := .skipped, pluginName := "" }) :=
  ⟨rfl, install_interactive_skip env0 "p" [compA] "h" (.localPath "/src") "t" opts9
    (.result ⟨[], false⟩) world0 rfl (Or.inr ⟨⟨[], false⟩, rfl, Or.inr rfl⟩)⟩

/-- C7 amended: a read error on the first existing candidate directory is
swallowed and yields zero components of that type; discovery never fails,
but it does not fall through to later candidates. -/
theorem discoverType_swallows_read_error (fsys : FSModel)
    (root pluginName : String) (type : ComponentType) (fullPath : String)
    (hfind : firstExistingCandidate fsys root (SEARCH_PATHS type) = some fullPath)
    (herr : fsys.readdir fullPath = .error ()) :
    discoverType fsys root pluginName type = [] := by
  have h1 : discoverType fsys root pluginName type =
      scanDirectory fsys fullPath pluginName type := by
    unfold discoverType
    rw [hfind]
  rw [h1]
  unfold scanDirectory
  rw [herr]

/-- A source tree in which the first existing command candidate directory
cannot be read, while a later candidate holds a valid command file. -/
def fs7 : FSModel :=
  { pathExists := fun p =>
      p = "r/.opencode/commands" || p = "r/commands" || p = "r/commands/a.md",
    readdir := fun p => if p = "r/commands" then .ok ["a.md"] else .error (),
    statOf := fun p => if p = "r/commands/a.md" then .ok .file else .error () }

/-- C7 counterexample: with the first existing candidate unreadable,
discovery returns nothing even though the next candidate directory exists
and contains a discoverable command — there is no fall-through. -/
theorem discoverType_no_fallthrough_cex :
    discoverType fs7 "r" "p" .command = [] ∧
    fs7.pathExists "r/commands" = true ∧
    scanDirectory fs7 "r/commands" "p" .command =
      [⟨.command, "r/commands/a.md", "a.md", "p--a.md"⟩] := by
  refine ⟨by rfl, by rfl, by rfl⟩

/-- C7 witness: the amended statement applied to the same concrete tree. -/
theorem discoverType_swallows_read_error_witness :
    firstExistingCandidate fs7 "r" (SEARCH_PATHS .command) =
      some "r/.opencode/commands" ∧
    fs7.readdir "r/.opencode/commands" = .error () ∧
    discoverType fs7 "r" "p" .command = [] :=
  ⟨by rfl, by rfl,
    discoverType_swallows_read_error fs7 "r" "p" .command "r/.opencode/commands"
      (by rfl) (by rfl)⟩

/-- The per-component conflict decision inside `detectConflicts`. -/
theorem detectConflicts_mem_iff (env : Env) (fs : List String)
    (reg : PluginRegistry) (comps : List DiscoveredComponent) (pname : String)
    (scope : Scope) (tdir : Option String) (k : ConflictInfo) :
    k ∈ detectConflicts env fs reg comps pname scope tdir ↔
      ∃ c ∈ comps,
        stripSlash (getComponentTargetPath env pname c.name c.type scope tdir) ∈ fs ∧
        findOwningPlugin reg c.type c.targetName ≠ some pname ∧
        k = ⟨c, stripSlash (getComponentTargetPath env pname c.name c.type scope tdir),
          findOwningPlugin reg c.type c.targetName⟩ := by
  unfold detectConflicts
  rw [List.mem_filterMap]
  constructor
  · rintro ⟨c, hc, hfc⟩
    dsimp only at hfc
    by_cases hin :
        stripSlash (getComponentTargetPath env pname c.name c.type scope tdir) ∈ fs
    · rw [if_pos hin] at hfc
      by_cases hown : findOwningPlugin reg c.type c.targetName ≠ some pname
      · rw [if_pos hown] at hfc
        cases hfc
        exact ⟨c, hc, hin, hown, rfl⟩
      · rw [if_neg hown] at hfc
        cases hfc
    · rw [if_neg hin] at hfc
      cases hfc
  · rintro ⟨c, hc, hin, hown, hk⟩
    refine ⟨c, hc, ?_⟩
    dsimp only
    rw [if_pos hin, if_pos hown, hk]

/-- C2: for every component whose computed target path exists, conflict
detection classifies it into exactly one of three outcomes — owned by the
plugin being installed (no conflict), owned by a different plugin (a
conflict carrying that owner), or untracked (a conflict with no owner) —
and the scan covers the whole component list in one pass, reporting every
conflict. -/
theorem detectConflicts_classification (env : Env) (fs : List String)
    (reg : PluginRegistry) (comps : List DiscoveredComponent) (pname : String)
    (scope : Scope) (tdir : Option String) (c : DiscoveredComponent)
    (hc : c ∈ comps)
    (hex : stripSlash (getComponentTargetPath env pname c.name c.type scope tdir) ∈ fs) :
    (findOwningPlugin reg c.type c.targetName = some pname →
      ∀ k ∈ detectConflicts env fs reg comps pname scope tdir, k.component ≠ c) ∧
    (∀ q, findOwningPlugin reg c.type c.targetName = some q → q ≠ pname →
      ∃ k ∈ detectConflicts env fs reg comps pname scope tdir,
        k.component = c ∧ k.conflictingPlugin = some q) ∧
    (findOwningPlugin reg c.type c.targetName = none →
      ∃ k ∈ detectConflicts env fs reg comps pname scope tdir,
        k.component = c ∧ k.conflictingPlugin = none) := by
  refine ⟨?_, ?_, ?_⟩
  · intro hown k hk hkc
    rcases (detectConflicts_mem_iff env fs reg comps pname scope tdir k).mp hk
      with ⟨a, _, _, ha, hkeq⟩
    rw [hkeq] at hkc
    dsimp only at hkc
    rw [hkc] at ha
    exact ha hown
  · intro q hq hqp
    refine ⟨⟨c, stripSlash (getComponentTargetPath env pname c.name c.type scope tdir),
      findOwningPlugin reg c.type c.targetName⟩, ?_, rfl, by rw [hq]⟩
    exact (detectConflicts_mem_iff env fs reg comps pname scope tdir _).mpr
      ⟨c, hc, hex, by rw [hq]; exact fun h => hqp (Option.some.inj h), rfl⟩
  · intro hq
    refine ⟨⟨c, stripSlash (getComponentTargetPath env pname c.name c.type scope tdir),
      findOwningPlugin reg c.type c.targetName⟩, ?_, rfl, by rw [hq]⟩
    exact (detectConflicts_mem_iff env fs reg comps pname scope tdir _).mpr
      ⟨c, hc, hex, by rw [hq]; exact fun h => Option.noConfusion h, rfl⟩

def comp2 : DiscoveredComponent := ⟨.command, "/src/x.md", "x.md", "b--x.md"⟩

def fsC2 : List String := ["/home/u/.config/opencode/commands/b--x.md"]

/-- C2 witness: a concrete untracked occupied target is reported as a
conflict with a null owner. -/
theorem detectConflicts_classification_witness :
    comp2 ∈ [comp2] ∧
    stripSlash (getComponentTargetPath env0 "b" comp2.name comp2.type .user none) ∈ fsC2 ∧
    (∃ k ∈ detectConflicts env0 fsC2 emptyRegistryV2 [comp2] "b" .user none,
      k.component = comp2 ∧ k.conflictingPlugin = none) :=
  ⟨by decide, by decide,
    (detectConflicts_classification env0 fsC2 emptyRegistryV2 [comp2] "b" .user none
      comp2 (by decide) (by decide)).2.2 (by decide)⟩

theorem lookup_removePlugin_self (reg : PluginRegistry) (n : String) :
    lookupPlugin (removePlugin reg n) n = none := by
  unfold lookupPlugin removePlugin
  rw [List.find?_eq_none.mpr]
  · rfl
  · intro e he
    have := (List.mem_filter.mp he).2
    simp only [decide_eq_true_eq] at this ⊢
    simpa using this

/-- When every real deletion succeeds, the deletion loop completes with
the filesystem only shrinking, every processed target gone, and every
initially missing target recorded as already deleted. -/
theorem deleteAll_spec (env : Env) (rmOk : String → Bool) (scope : Scope)
    (hrm : ∀ p, rmOk p = true) :
    ∀ (ts : List (ComponentType × String)) (fs : List String) (res : DeletionResult),
      ∃ fs2 res2, deleteAll env rmOk scope ts (fs, res) = .ok (fs2, res2) ∧
        (∀ q, q ∈ fs2 → q ∈ fs) ∧
        (∀ x, x ∈ res.alreadyMissing → x ∈ res2.alreadyMissing) ∧
        (∀ t ∈ ts, targetFsPath env scope t ∉ fs2) ∧
        (∀ t ∈ ts, targetFsPath env scope t ∉ fs → targetTag t ∈ res2.alreadyMissing) := by
  intro ts
  induction ts with
  | nil =>
    intro fs res
    exact ⟨fs, res, rfl, fun q hq => hq, fun x hx => hx,
      fun t ht => absurd ht (by simp), fun t ht => absurd ht (by simp)⟩
  | cons t rest ih =>
    intro fs res
    obtain ⟨ty, n⟩ := t
    by_cases hin : targetFsPath env scope (ty, n) ∈ fs
    · obtain ⟨fs2, res2, hda, hsub, hmono, hout, hmiss⟩ :=
        ih (fs.filter (fun p => p ≠ targetFsPath env scope (ty, n)))
          { res with deleted := res.deleted ++ [targetTag (ty, n)] }
      refine ⟨fs2, res2, ?_, ?_, ?_, ?_, ?_⟩
      · show deleteAll env rmOk scope ((ty, n) :: rest) (fs, res) = _
        unfold deleteAll deleteComponent
        rw [if_pos hin, if_pos (hrm _)]
        exact hda
      · intro q hq
        exact (List.mem_filter.mp (hsub q hq)).1
      · exact fun x hx => hmono x hx
      · intro u hu
        rcases List.mem_cons.mp hu with h | h
        · subst h
          intro hcon
          have := List.mem_filter.mp (hsub _ hcon)
          simp at this
        · exact hout u h
      · intro u hu hufs
        rcases List.mem_cons.mp hu with h | h
        · subst h
          exact absurd hin hufs
        · refine hmiss u h ?_
          intro hcon
          exact hufs (List.mem_filter.mp hcon).1
    · obtain ⟨fs2, res2, hda, hsub, hmono, hout, hmiss⟩ :=
        ih fs { res with alreadyMissing := res.alreadyMissing ++ [targetTag (ty, n)] }
      refine ⟨fs2, res2, ?_, hsub, ?_, ?_, ?_⟩
      · show deleteAll env rmOk scope ((ty, n) :: rest) (fs, res) = _
        unfold deleteAll deleteComponent
        rw [if_neg hin]
        exact hda
      · intro x hx
        exact hmono x (by simp [hx])
      · intro u hu
        rcases List.mem_cons.mp hu with h | h
        · subst h
          exact fun hcon => hin (hsub _ hcon)
        · exact hout u h
      · intro u hu hufs
        rcases List.mem_cons.mp hu with h | h
        · subst h
          exact hmono (targetTag (ty, n)) (by simp)
        · exact hmiss u h hufs

/-- C5: when some recorded targets are missing from the filesystem,
`uninstall` still succeeds — every missing target is recorded as an
already-deleted warning, every remaining target is still deleted, and the
registry entry for the plugin is removed and persisted. -/
theorem uninstall_tolerates_missing_targets (env : Env) (rmOk : String → Bool)
    (name : String) (scope : Scope) (w : World) (p : InstalledPlugin)
    (hp : lookupPlugin w.registry name = some p)
    (hrm : ∀ q, rmOk q = true) :
    ∃ w2 res, uninstall env rmOk name scope w = .ok (w2, res) ∧
      lookupPlugin w2.registry name = none ∧
      (∀ t ∈ pluginTargets p, targetFsPath env scope t ∉ w2.fs) ∧
      (∀ t ∈ pluginTargets p, targetFsPath env scope t ∉ w.fs →
        targetTag t ∈ res.alreadyMissing) := by
  obtain ⟨fs2, res2, hda, _, _, hout, hmiss⟩ :=
    deleteAll_spec env rmOk scope hrm (pluginTargets p) w.fs ⟨[], []⟩
  refine ⟨{ w with fs := fs2, registry := removePlugin w.registry name }, res2,
    ?_, ?_, hout, hmiss⟩
  · have h1 : uninstall env rmOk name scope w =
        match deleteAll env rmOk scope (pluginTargets p) (w.fs, ⟨[], []⟩) with
        | .error e => .error e
        | .ok (fs3, results) =>
          .ok ({ w with fs := fs3, registry := removePlugin w.registry name }, results) := by
      unfold uninstall
      rw [hp]
    rw [h1, hda]
  · exact lookup_removePlugin_self w.registry name

def pluginD : InstalledPlugin :=
  { name := "drift", hash := "hd", scope := .user, source := .localPath "/d",
    installedAt := "t0", components := ⟨["drift--a.md", "drift--b.md"], [], []⟩ }

def worldD : World :=
  { fs := ["/home/u/.config/opencode/commands/drift--a.md"],
    registry := { version := some 2, plugins := [("drift", pluginD)] },
    temp := none }

def alwaysRm : String → Bool := fun _ => true

/-- C5 witness: uninstalling a plugin one of whose two recorded targets
was deleted out-of-band. -/
theorem uninstall_tolerates_missing_targets_witness :
    lookupPlugin worldD.registry "drift" = some pluginD ∧
    (∃ w2 res, uninstall env0 alwaysRm "drift" .user worldD = .ok (w2, res) ∧
      lookupPlugin w2.registry "drift" = none ∧
      (∀ t ∈ pluginTargets pluginD, targetFsPath env0 .user t ∉ w2.fs) ∧
      (∀ t ∈ pluginTargets pluginD, targetFsPath env0 .user t ∉ worldD.fs →
        targetTag t ∈ res.alreadyMissing)) :=
  ⟨by decide,
    uninstall_tolerates_missing_targets env0 alwaysRm "drift" .user worldD pluginD
      (by decide) (fun _ => rfl)⟩

theorem selectStep_none_cases (interactive : Bool) (pick : PickOutcome)
    (components : List DiscoveredComponent)
    (h : selectStep interactive pick components = .ok none) :
    interactive = true ∧ (pick = .forcedClose ∨
      ∃ r, pick = .result r ∧ (r.cancelled = true ∨ r.selected = [])) := by
  unfold selectStep at h
  by_cases hi : interactive = true
  · refine ⟨hi, ?_⟩
    rw [hi] at h
    simp only [Bool.not_true] at h
    cases pick with
    | result r =>
      refine Or.inr ⟨r, rfl, ?_⟩
      by_cases hc : r.cancelled = true
      · exact Or.inl hc
      · simp only [if_false, hc, if_neg] at h
        by_cases he : r.selected.isEmpty = true
        · exact Or.inr (List.isEmpty_iff.mp he)
        · rw [if_neg he] at h
          cases h
    | forcedClose => exact Or.inl rfl
    | failure m => cases h
  · have hi2 : interactive = false := by
      cases interactive
      · rfl
      · exact absurd rfl hi
    rw [hi2] at h
    simp only [Bool.not_false, if_pos] at h
    cases h

theorem installStatusOf_ne_skipped (existingPlugin : Option InstalledPlugin)
    (pluginHash : String) :
    installStatusOf existingPlugin pluginHash ≠ .skipped := by
  unfold installStatusOf
  cases existingPlugin with
  | none => exact fun h => InstallStatus.noConfusion h
  | some p =>
    show (if p.hash = pluginHash then InstallStatus.installed
      else InstallStatus.updated) ≠ .skipped
    by_cases h : p.hash = pluginHash
    · rw [if_pos h]
      exact fun h => InstallStatus.noConfusion h
    · rw [if_neg h]
      exact fun h => InstallStatus.noConfusion h

/-- C4 amended: `install` returns status skipped only when skip-if-same-hash
mode was requested and the computed hash equals the recorded hash, or when
interactive selection was cancelled, empty, or force-closed; in every
skipped return the filesystem and the registry are left untouched (the
skip-if-same-hash return happens before conflict checking, directory
creation, copying and the registry save). -/
theorem install_skipped_characterization (env : Env) (pluginName : String)
    (components : List DiscoveredComponent) (pluginHash : String)
    (src : PluginSource) (now : String) (opts : InstallOptions)
    (pick : PickOutcome) (w w2 : World) (res : InstallResult)
    (h : install env pluginName components pluginHash src now opts pick w =
      .ok (w2, res))
    (hs : res.status = .skipped) :
    w2.fs = w.fs ∧ w2.registry = w.registry ∧
      ((opts.skipIfSameHash = true ∧
        ∃ p, lookupPlugin w.registry pluginName = some p ∧ p.hash = pluginHash) ∨
       (opts.interactive = true ∧ (pick = .forcedClose ∨
        ∃ r, pick = .result r ∧ (r.cancelled = true ∨ r.selected = [])))) := by
  unfold install at h
  rcases hsel : selectStep opts.interactive pick components with e | osel
  · rw [hsel] at h
    cases h
  · rw [hsel] at h
    cases osel with
    | none =>
      simp only [] at h
      injection h with h2
      injection h2 with hw hr
      rw [← hw]
      exact ⟨rfl, rfl, Or.inr (selectStep_none_cases _ _ _ hsel)⟩
    | some comps2 =>
      simp only [] at h
      by_cases hskip : (opts.skipIfSameHash &&
          match lookupPlugin w.registry pluginName with
          | some p => decide (p.hash = pluginHash)
          | none => false) = true
      · rw [if_pos hskip] at h
        injection h with h2
        injection h2 with hw hr
        rw [← hw]
        refine ⟨rfl, rfl, Or.inl ⟨(Bool.and_eq_true _ _).mp hskip |>.1, ?_⟩⟩
        have h3 := ((Bool.and_eq_true _ _).mp hskip).2
        rcases hlk : lookupPlugin w.registry pluginName with _ | p
        · rw [hlk] at h3
          cases h3
        · rw [hlk] at h3
          exact ⟨p, rfl, of_decide_eq_true h3⟩
      · rw [if_neg hskip] at h
        by_cases hcf : (!(detectConflicts env w.fs w.registry comps2 pluginName
            opts.scope opts.targetDir).isEmpty && !opts.force) = true
        · rw [if_pos hcf] at h
          cases h
        · rw [if_neg hcf] at h
          injection h with h2
          injection h2 with hw hr
          rw [← hr] at hs
          exact absurd hs
            (installStatusOf_ne_skipped (lookupPlugin w.registry pluginName) pluginHash)

def pluginP : InstalledPlugin :=
  { name := "p", hash := "h", scope := .user, source := .localPath "/s",
    installedAt := "t", components := ⟨[], [], []⟩ }

def worldP : World :=
  { fs := [], registry := { version := some 2, plugins := [("p", pluginP)] },
    temp := none }

def optsSkip : InstallOptions :=
  { scope := .user, force := false, interactive := false,
    skipIfSameHash := true, targetDir := none }

/-- C4 witness: a concrete skip-if-same-hash run with a matching recorded
hash, leaving the world untouched. -/
theorem install_skipped_characterization_witness :
    install env0 "p" [compA] "h" (.localPath "/s") "t2" optsSkip
        (.result ⟨[], false⟩) worldP = .ok (worldP, ⟨.skipped, "p"⟩) ∧
    (worldP.fs = worldP.fs ∧ worldP.registry = worldP.registry ∧
      ((optsSkip.skipIfSameHash = true ∧
        ∃ p, lookupPlugin worldP.registry "p" = some p ∧ p.hash = "h") ∨
       (optsSkip.interactive = true ∧ ((.result ⟨[], false⟩ : PickOutcome) = .forcedClose ∨
        ∃ r, (.result ⟨[], false⟩ : PickOutcome) = .result r ∧
          (r.cancelled = true ∨ r.selected = []))))) :=
  ⟨rfl, install_skipped_characterization env0 "p" [compA] "h" (.localPath "/s") "t2"
    optsSkip (.result ⟨[], false⟩) worldP worldP ⟨.skipped, "p"⟩ rfl rfl⟩

def optsInter : InstallOptions :=
  { scope := .user, force := false, interactive := true,
    skipIfSameHash := false, targetDir := none }

/-- C4 counterexample: interactive cancellation returns status skipped even
though skip-if-same-hash mode was not requested, so skipped is not returned
only in that mode. -/
theorem install_skipped_without_skip_mode_cex :
    optsInter.skipIfSameHash = false ∧
    install env0 "q" [compA] "h" (.localPath "/s") "t3" optsInter
        (.result ⟨[], true⟩) worldP = .ok (worldP, ⟨.skipped, ""⟩) :=
  ⟨rfl, rfl⟩

theorem splitSegs_ne_nil (l : List Char) : splitSegs l ≠ [] := by
  cases l with
  | nil => simp [splitSegs]
  | cons c cs =>
    unfold splitSegs
    by_cases h : isPathSep c = true
    · rw [if_pos h]
      simp
    · rw [if_neg h]
      cases hs : splitSegs cs <;> simp

theorem splitSegs_sep_free (l : List Char) (h : ∀ c ∈ l, isPathSep c = false) :
    splitSegs l = [l] := by
  induction l with
  | nil => rfl
  | cons c cs ih =>
    unfold splitSegs
    rw [if_neg (by rw [h c (List.mem_cons_self c cs)]; simp),
      ih (fun x hx => h x (List.mem_cons_of_mem c hx))]

theorem splitSegs_sep_length (xs ys : List Char) :
    2 ≤ (splitSegs (xs ++ '/' :: ys)).length := by
  induction xs with
  | nil =>
    show 2 ≤ (splitSegs ('/' :: ys)).length
    unfold splitSegs
    rw [if_pos (by rfl)]
    have h1 : 0 < (splitSegs ys).length := List.length_pos.mpr (splitSegs_ne_nil ys)
    simp only [List.length_cons]
    omega
  | cons c cs ih =>
    show 2 ≤ (splitSegs (c :: (cs ++ '/' :: ys))).length
    unfold splitSegs
    by_cases h : isPathSep c = true
    · rw [if_pos h]
      have h1 : 0 < (splitSegs (cs ++ '/' :: ys)).length :=
        List.length_pos.mpr (splitSegs_ne_nil _)
      simp only [List.length_cons]
      omega
    · rw [if_neg h]
      cases hs : splitSegs (cs ++ '/' :: ys) with
      | nil => exact absurd hs (splitSegs_ne_nil _)
      | cons s ss =>
        rw [hs] at ih
        simp only [List.length_cons] at ih ⊢
        omega

theorem splitSegs_cons (c : Char) (cs : List Char) :
    splitSegs (c :: cs) =
      if isPathSep c then [] :: splitSegs cs
      else
        match splitSegs cs with
        | [] => [[c]]
        | s :: ss => (c :: s) :: ss := rfl

theorem splitSegs_sep_getLast (xs ys : List Char) :
    (splitSegs (xs ++ '/' :: ys)).getLast? = (splitSegs ys).getLast? := by
  induction xs with
  | nil =>
    show (splitSegs ('/' :: ys)).getLast? = _
    rw [splitSegs_cons, if_pos (by rfl)]
    cases hs : splitSegs ys with
    | nil => exact absurd hs (splitSegs_ne_nil _)
    | cons s ss => exact List.getLast?_cons_cons
  | cons c cs ih =>
    show (splitSegs (c :: (cs ++ '/' :: ys))).getLast? = _
    rw [splitSegs_cons]
    by_cases h : isPathSep c = true
    · rw [if_pos h]
      cases hs : splitSegs (cs ++ '/' :: ys) with
      | nil => exact absurd hs (splitSegs_ne_nil _)
      | cons s ss =>
        rw [hs] at ih
        rw [← ih]
        exact List.getLast?_cons_cons
    · rw [if_neg h]
      cases hs : splitSegs (cs ++ '/' :: ys) with
      | nil => exact absurd hs (splitSegs_ne_nil _)
      | cons s ss =>
        have hlen := splitSegs_sep_length cs ys
        rw [hs] at hlen ih
        cases ss with
        | nil => simp at hlen
        | cons s2 ss2 =>
          rw [← ih]
          exact List.getLast?_cons_cons.trans List.getLast?_cons_cons.symm

theorem getLast?_filter_nonempty (l : List (List Char)) (a : List Char)
    (ha : l.getLast? = some a) (hne : a ≠ []) :
    (l.filter (fun s => !s.isEmpty)).getLast? = some a := by
  induction l with
  | nil => cases ha
  | cons x t ih =>
    cases t with
    | nil =>
      rw [List.getLast?_singleton] at ha
      injection ha with ha
      subst ha
      rw [List.filter_cons, if_pos (by simpa using hne), List.filter_nil,
        List.getLast?_singleton]
    | cons y t2 =>
      rw [List.getLast?_cons_cons] at ha
      have h2 := ih ha
      rw [List.filter_cons]
      by_cases hx : (!x.isEmpty) = true
      · rw [if_pos hx]
        cases hf : (y :: t2).filter (fun s => !s.isEmpty) with
        | nil =>
          rw [hf] at h2
          cases h2
        | cons z zs =>
          rw [hf] at h2
          exact List.getLast?_cons_cons.trans h2
      · rw [if_neg hx]
        exact h2

theorem segsLastNE_sep (xs nm : List Char) (h1 : nm ≠ [])
    (h2 : ∀ c ∈ nm, isPathSep c = false) :
    segsLastNE (xs ++ '/' :: nm) = nm := by
  unfold segsLastNE
  have hlast : (splitSegs (xs ++ '/' :: nm)).getLast? = some nm := by
    rw [splitSegs_sep_getLast, splitSegs_sep_free nm h2, List.getLast?_singleton]
  rw [getLast?_filter_nonempty _ nm hlast h1]
  rfl

theorem basenameOf_dir_slash (b tn : String) (h1 : tn.data ≠ [])
    (h2 : ∀ c ∈ tn.data, isPathSep c = false) :
    basenameOf ((b ++ "/") ++ tn) = tn := by
  unfold basenameOf
  have hd : ((b ++ "/") ++ tn).data = b.data ++ '/' :: tn.data := by
    rw [String.data_append, String.data_append, List.append_assoc,
      List.singleton_append]
  rw [hd, segsLastNE_sep b.data tn.data h1 h2]

theorem joinPath_of_ends_slash (b t : String) :
    joinPath (b ++ "/") t = (b ++ "/") ++ t := by
  unfold joinPath
  rw [if_pos]
  rw [String.data_append]
  exact List.getLast?_concat _

theorem stripSlash_concat_slash (s : String) : stripSlash (s ++ "/") = s := by
  unfold stripSlash
  rw [if_pos]
  · rw [String.data_append]
    show String.mk ((s.data ++ ['/']).dropLast) = s
    rw [List.dropLast_concat]
  · rw [String.data_append]
    exact List.getLast?_concat _

theorem stripSlash_no_slash (s : String) (h : s.data.getLast? ≠ some '/') :
    stripSlash s = s := by
  unfold stripSlash
  rw [if_neg h]

theorem getComponentDir_ends_slash (env : Env) (t : ComponentType) (scope : Scope)
    (td : Option String) : ∃ b, getComponentDir env t scope td = b ++ "/" := by
  unfold getComponentDir
  cases scope
  · cases td
    · by_cases h : t = .skill
      · rw [if_pos h]
        exact ⟨_, rfl⟩
      · rw [if_neg h]
        exact ⟨_, rfl⟩
    · exact ⟨_, rfl⟩
  · exact ⟨_, rfl⟩

theorem targetName_last_not_slash (tn : String) (h1 : tn.data ≠ [])
    (h2 : ∀ c ∈ tn.data, isPathSep c = false) :
    ∀ b : String, ((b ++ "/") ++ tn).data.getLast? ≠ some '/' := by
  intro b
  rcases List.eq_nil_or_concat tn.data with h | ⟨l2, ch, hch⟩
  · exact absurd h h1
  · rw [List.concat_eq_append] at hch
    rw [String.data_append, List.getLast?_append_of_ne_nil _ h1, hch,
      List.getLast?_concat]
    intro hcon
    injection hcon with hcon
    have h3 := h2 ch (by rw [hch]; exact List.mem_append_right l2 (List.mem_singleton.mpr rfl))
    rw [hcon] at h3
    cases h3

/-- The filesystem path a component is copied to, with trailing slash
stripped: the component directory followed by the target name. -/
theorem stripSlash_targetPath (env : Env) (pname nm : String) (t : ComponentType)
    (scope : Scope) (td : Option String)
    (h1 : (getComponentTargetName pname nm).data ≠ [])
    (h2 : ∀ c ∈ (getComponentTargetName pname nm).data, isPathSep c = false) :
    stripSlash (getComponentTargetPath env pname nm t scope td) =
      getComponentDir env t scope td ++ getComponentTargetName pname nm := by
  obtain ⟨b, hb⟩ := getComponentDir_ends_slash env t scope td
  unfold getComponentTargetPath
  rw [hb]
  dsimp only
  by_cases h : t = .skill
  · rw [if_pos h, joinPath_of_ends_slash, stripSlash_concat_slash]
  · rw [if_neg h, joinPath_of_ends_slash,
      stripSlash_no_slash _ (targetName_last_not_slash _ h1 h2 b)]

/-- Basename of the stripped target path is the target name itself. -/
theorem basenameOf_targetPath (env : Env) (pname nm : String) (t : ComponentType)
    (scope : Scope) (td : Option String)
    (h1 : (getComponentTargetName pname nm).data ≠ [])
    (h2 : ∀ c ∈ (getComponentTargetName pname nm).data, isPathSep c = false) :
    basenameOf (stripSlash (getComponentTargetPath env pname nm t scope td)) =
      getComponentTargetName pname nm := by
  obtain ⟨b, hb⟩ := getComponentDir_ends_slash env t scope td
  rw [stripSlash_targetPath env pname nm t scope td h1 h2, hb]
  exact basenameOf_dir_slash b _ h1 h2

theorem slug_not_sep (c : Char) (h : isSlugChar c = true) : isPathSep c = false := by
  cases hs : isPathSep c
  · rfl
  · exfalso
    unfold isPathSep at hs
    by_cases h1 : c = '/'
    · rw [h1] at h
      exact absurd h (by decide)
    · by_cases h2 : c = '\\'
      · rw [h2] at h
        exact absurd h (by decide)
      · rw [decide_eq_false h1, decide_eq_false h2] at hs
        cases hs

theorem targetName_sep_free (pname nm : String)
    (hv : validatePluginName pname = true)
    (hnm : ∀ c ∈ nm.data, isPathSep c = false) :
    (getComponentTargetName pname nm).data ≠ [] ∧
    ∀ c ∈ (getComponentTargetName pname nm).data, isPathSep c = false := by
  have hdata : (getComponentTargetName pname nm).data =
      pname.data ++ ('-' :: '-' :: nm.data) := by
    unfold getComponentTargetName
    rw [String.data_append, String.data_append, List.append_assoc]
    rfl
  have hval := (Bool.and_eq_true _ _).mp hv
  have hpne : pname.data ≠ [] := by
    intro h
    have h3 := hval.1
    rw [h] at h3
    exact absurd h3 (by decide)
  constructor
  · rw [hdata]
    intro h
    exact hpne (List.append_eq_nil.mp h).1
  · intro c hc
    rw [hdata] at hc
    rcases List.mem_append.mp hc with h | h
    · exact slug_not_sep c (List.all_eq_true.mp hval.2 c h)
    · rcases List.mem_cons.mp h with h | h
      · rw [h]; rfl
      · rcases List.mem_cons.mp h with h | h
        · rw [h]; rfl
        · exact hnm c h

theorem find?_map_set (l : List (String × InstalledPlugin)) (n : String)
    (p : InstalledPlugin)
    (h : (l.find? (fun e => e.1 = n)).isSome = true) :
    ((l.map (fun e => if e.1 = n then (n, p) else e)).find? (fun e => e.1 = n)) =
      some (n, p) := by
  induction l with
  | nil => simp [List.find?] at h
  | cons e t ih =>
    by_cases he : e.1 = n
    · simp [List.find?, he]
    · rw [List.map_cons, if_neg he]
      rw [List.find?_cons_of_neg _ (by simpa using he)] at h ⊢
      exact ih h

theorem find?_append_single_none (l : List (String × InstalledPlugin)) (n : String)
    (p : InstalledPlugin)
    (h : l.find? (fun e => e.1 = n) = none) :
    (l ++ [(n, p)]).find? (fun e => e.1 = n) = some (n, p) := by
  induction l with
  | nil => simp [List.find?]
  | cons e t ih =>
    by_cases he : e.1 = n
    · rw [List.find?_cons_of_pos _ (by simpa using he)] at h
      cases h
    · rw [List.find?_cons_of_neg _ (by simpa using he)] at h
      show List.find? _ (e :: (t ++ [(n, p)])) = _
      rw [List.find?_cons_of_neg _ (by simpa using he)]
      exact ih h

theorem find?_map_set_ne (l : List (String × InstalledPlugin)) (n m : String)
    (p : InstalledPlugin) (hnm : m ≠ n) :
    ((l.map (fun e => if e.1 = n then (n, p) else e)).find? (fun e => e.1 = m)) =
      l.find? (fun e => e.1 = m) := by
  induction l with
  | nil => rfl
  | cons e t ih =>
    by_cases he : e.1 = n
    · rw [List.map_cons, if_pos he]
      rw [List.find?_cons_of_neg _ (by simpa using fun h => hnm h.symm),
        List.find?_cons_of_neg _ (by simpa using fun h => hnm (he ▸ h).symm)]
      exact ih
    · rw [List.map_cons, if_neg he]
      by_cases hm : e.1 = m
      · rw [List.find?_cons_of_pos _ (by simpa using hm),
          List.find?_cons_of_pos _ (by simpa using hm)]
      · rw [List.find?_cons_of_neg _ (by simpa using hm),
          List.find?_cons_of_neg _ (by simpa using hm)]
        exact ih

theorem find?_append_single_ne (l : List (String × InstalledPlugin)) (n m : String)
    (p : InstalledPlugin) (hnm : m ≠ n) :
    (l ++ [(n, p)]).find? (fun e => e.1 = m) = l.find? (fun e => e.1 = m) := by
  induction l with
  | nil =>
    rw [List.nil_append,
      List.find?_cons_of_neg _ (by simpa using fun h => hnm h.symm)]
  | cons e t ih =>
    by_cases hm : e.1 = m
    · show List.find? _ (e :: (t ++ [(n, p)])) = _
      rw [List.find?_cons_of_pos _ (by simpa using hm),
        List.find?_cons_of_pos _ (by simpa using hm)]
    · show List.find? _ (e :: (t ++ [(n, p)])) = _
      rw [List.find?_cons_of_neg _ (by simpa using hm),
        List.find?_cons_of_neg _ (by simpa using hm)]
      exact ih

theorem lookup_setPlugin_self (reg : PluginRegistry) (n : String)
    (p : InstalledPlugin) : lookupPlugin (setPlugin reg n p) n = some p := by
  unfold lookupPlugin setPlugin
  by_cases h : (reg.plugins.find? (fun e => e.1 = n)).isSome = true
  · rw [if_pos h]
    show ((reg.plugins.map _).find? _).map _ = _
    rw [find?_map_set reg.plugins n p h]
    rfl
  · rw [if_neg h]
    show ((reg.plugins ++ [(n, p)]).find? _).map _ = _
    rw [find?_append_single_none reg.plugins n p
      (by
        cases hf : reg.plugins.find? (fun e => e.1 = n)
        · rfl
        · rw [hf] at h
          exact absurd rfl h)]
    rfl

theorem lookup_setPlugin_ne (reg : PluginRegistry) (n m : String)
    (p : InstalledPlugin) (hnm : m ≠ n) :
    lookupPlugin (setPlugin reg n p) m = lookupPlugin reg m := by
  unfold lookupPlugin setPlugin
  by_cases h : (reg.plugins.find? (fun e => e.1 = n)).isSome = true
  · rw [if_pos h]
    show ((reg.plugins.map _).find? _).map _ = _
    rw [find?_map_set_ne reg.plugins n m p hnm]
  · rw [if_neg h]
    show ((reg.plugins ++ [(n, p)]).find? _).map _ = _
    rw [find?_append_single_ne reg.plugins n m p hnm]

/-- Reduction of `install` once selection passed and skip-if-same-hash
mode is off: the conflict gate decides between the abort and the full
copy-and-save path. -/
theorem install_run (env : Env) (pluginName : String)
    (components : List DiscoveredComponent) (pluginHash : String)
    (src : PluginSource) (now : String) (opts : InstallOptions)
    (pick : PickOutcome) (w : World) (comps2 : List DiscoveredComponent)
    (hsel : selectStep opts.interactive pick components = .ok (some comps2))
    (hskip : opts.skipIfSameHash = false) :
    install env pluginName components pluginHash src now opts pick w =
      if !(detectConflicts env w.fs w.registry comps2 pluginName opts.scope
          opts.targetDir).isEmpty && !opts.force then
        .error (.conflicts (detectConflicts env w.fs w.registry comps2 pluginName
          opts.scope opts.targetDir))
      else
        .ok ({ fs := (copyComponents env pluginName opts.scope opts.targetDir comps2
                (ensureComponentDirsExist env opts.scope opts.targetDir w.fs)).1,
               registry := setPlugin w.registry pluginName
                 { name := pluginName, hash := pluginHash, scope := opts.scope,
                   source := src, installedAt := now,
                   components := (copyComponents env pluginName opts.scope
                     opts.targetDir comps2
                     (ensureComponentDirsExist env opts.scope opts.targetDir w.fs)).2 },
               temp := none },
             { status := installStatusOf (lookupPlugin w.registry pluginName) pluginHash,
               pluginName := pluginName }) := by
  unfold install
  rw [hsel]
  dsimp only
  rw [hskip]
  rfl

/-- C3 amended: with a registry in which (per `findOwningPlugin`) plugin A
owns target T, installing plugin B whose single component produces T fails
without force with a conflict naming A; with force it succeeds and the new
record for B lists T — but A keeps its registry record unchanged, which
still lists T: ownership is not transferred away from A. -/
theorem install_force_keeps_prior_owner_record (env : Env) (scope : Scope)
    (tdir : Option String) (aName bName nm sp hashB now : String)
    (ctype : ComponentType) (src : PluginSource) (pick : PickOutcome) (w : World)
    (hvb : validatePluginName bName = true)
    (hnm : ∀ ch ∈ nm.data, isPathSep ch = false)
    (hA : findOwningPlugin w.registry ctype (getComponentTargetName bName nm) =
      some aName)
    (hAB : aName ≠ bName)
    (hex : stripSlash (getComponentTargetPath env bName nm ctype scope tdir) ∈ w.fs) :
    (install env bName [⟨ctype, sp, nm, getComponentTargetName bName nm⟩] hashB
        src now ⟨scope, false, false, false, tdir⟩ pick w =
      .error (.conflicts [⟨⟨ctype, sp, nm, getComponentTargetName bName nm⟩,
        stripSlash (getComponentTargetPath env bName nm ctype scope tdir),
        some aName⟩])) ∧
    (∃ w2 res, install env bName [⟨ctype, sp, nm, getComponentTargetName bName nm⟩]
        hashB src now ⟨scope, true, false, false, tdir⟩ pick w = .ok (w2, res) ∧
      (∃ p, lookupPlugin w2.registry bName = some p ∧
        getComponentTargetName bName nm ∈ componentList p ctype) ∧
      lookupPlugin w2.registry aName = lookupPlugin w.registry aName) := by
  obtain ⟨hn1, hn2⟩ := targetName_sep_free bName nm hvb hnm
  have hne : findOwningPlugin w.registry ctype (getComponentTargetName bName nm) ≠
      some bName := by
    rw [hA]
    intro hcon
    exact hAB (Option.some.inj hcon)
  have hconf : detectConflicts env w.fs w.registry
      [⟨ctype, sp, nm, getComponentTargetName bName nm⟩] bName scope tdir =
      [⟨⟨ctype, sp, nm, getComponentTargetName bName nm⟩,
        stripSlash (getComponentTargetPath env bName nm ctype scope tdir),
        some aName⟩] := by
    unfold detectConflicts
    rw [List.filterMap_cons, List.filterMap_nil]
    dsimp only
    rw [if_pos hex, if_pos hne, hA]
  constructor
  · rw [install_run env bName _ hashB src now ⟨scope, false, false, false, tdir⟩
      pick w _ rfl rfl, hconf]
    rfl
  · have hcopy : componentList
        { name := bName, hash := hashB, scope := scope, source := src,
          installedAt := now,
          components := (copyComponents env bName scope tdir
            [⟨ctype, sp, nm, getComponentTargetName bName nm⟩]
            (ensureComponentDirsExist env scope tdir w.fs)).2 } ctype =
        [getComponentTargetName bName nm] := by
      have hbase := basenameOf_targetPath env bName nm ctype scope tdir hn1 hn2
      cases ctype <;>
        simp [copyComponents, componentList, List.insertionSort,
          List.orderedInsert, hbase]
    have h2 : install env bName [⟨ctype, sp, nm, getComponentTargetName bName nm⟩]
        hashB src now ⟨scope, true, false, false, tdir⟩ pick w =
        .ok ({ fs := (copyComponents env bName scope tdir
                 [⟨ctype, sp, nm, getComponentTargetName bName nm⟩]
                 (ensureComponentDirsExist env scope tdir w.fs)).1,
               registry := setPlugin w.registry bName
                 { name := bName, hash := hashB, scope := scope, source := src,
                   installedAt := now,
                   components := (copyComponents env bName scope tdir
                     [⟨ctype, sp, nm, getComponentTargetName bName nm⟩]
                     (ensureComponentDirsExist env scope tdir w.fs)).2 },
               temp := none },
             { status := installStatusOf (lookupPlugin w.registry bName) hashB,
               pluginName := bName }) := by
      rw [install_run env bName _ hashB src now ⟨scope, true, false, false, tdir⟩
        pick w _ rfl rfl, hconf]
      rfl
    exact ⟨_, _, h2,
      ⟨_, lookup_setPlugin_self w.registry bName _,
        by rw [hcopy]; exact List.mem_singleton.mpr rfl⟩,
      lookup_setPlugin_ne w.registry bName aName _ hAB⟩

def pluginA : InstalledPlugin :=
  { name := "alpha", hash := "ha", scope := .user, source := .localPath "/a",
    installedAt := "t0", components := ⟨["beta--x.md"], [], []⟩ }

def worldA : World :=
  { fs := ["/home/u/.config/opencode/commands/beta--x.md"],
    registry := { version := some 2, plugins := [("alpha", pluginA)] },
    temp := none }

def compBx : DiscoveredComponent := ⟨.command, "/src/x.md", "x.md", "beta--x.md"⟩

/-- C3 witness: the amended statement at a concrete registry owned by
"alpha" and a concrete install of "beta". -/
theorem install_force_keeps_prior_owner_record_witness :
    validatePluginName "beta" = true ∧
    findOwningPlugin worldA.registry .command
      (getComponentTargetName "beta" "x.md") = some "alpha" ∧
    stripSlash (getComponentTargetPath env0 "beta" "x.md" .command .user none)
      ∈ worldA.fs ∧
    ((install env0 "beta" [⟨.command, "/src/x.md", "x.md",
        getComponentTargetName "beta" "x.md"⟩] "hb" (.localPath "/src") "t1"
        ⟨.user, false, false, false, none⟩ (.result ⟨[], false⟩) worldA =
      .error (.conflicts [⟨⟨.command, "/src/x.md", "x.md",
        getComponentTargetName "beta" "x.md"⟩,
        stripSlash (getComponentTargetPath env0 "beta" "x.md" .command .user none),
        some "alpha"⟩])) ∧
    (∃ w2 res, install env0 "beta" [⟨.command, "/src/x.md", "x.md",
        getComponentTargetName "beta" "x.md"⟩] "hb" (.localPath "/src") "t1"
        ⟨.user, true, false, false, none⟩ (.result ⟨[], false⟩) worldA =
        .ok (w2, res) ∧
      (∃ p, lookupPlugin w2.registry "beta" = some p ∧
        getComponentTargetName "beta" "x.md" ∈ componentList p .command) ∧
      lookupPlugin w2.registry "alpha" = lookupPlugin worldA.registry "alpha")) :=
  ⟨by decide, by decide, by decide,
    install_force_keeps_prior_owner_record env0 .user none "alpha" "beta" "x.md"
      "/src/x.md" "hb" "t1" .command (.localPath "/src") (.result ⟨[], false⟩)
      worldA (by decide) (by decide) (by decide) (by decide) (by decide)⟩

/-- C3 counterexample: after a concrete force install of "beta" over a
target owned by "alpha", the registry record of "alpha" is unchanged and
still lists the target, and `findOwningPlugin` still answers "alpha" — the
claimed ownership transfer away from A does not happen. -/
theorem install_force_no_ownership_transfer_cex :
    ∃ w2 res, install env0 "beta" [compBx] "hb" (.localPath "/src") "t1"
        ⟨.user, true, false, false, none⟩ (.result ⟨[], false⟩) worldA =
        .ok (w2, res) ∧
      lookupPlugin w2.registry "alpha" = some pluginA ∧
      "beta--x.md" ∈ componentList pluginA .command ∧
      findOwningPlugin w2.registry .command "beta--x.md" = some "alpha" := by
  refine ⟨_, _, rfl, by decide, by decide, by decide⟩

end Ocm
